import Mathlib

/-!
# geoip: weighted-vote resolution of the external IP

A shallow embedding of `geoip/consensus.go` and `geoip/http.go`.

* Go's `uint` is a natural number; the one arithmetic operation of the package,
  `voteCollection[ip.String()] += v.weight`, wraps modulo `2 ^ uintBits`, where `uintBits`
  is the width of `uint` on the platform (64 in the closed examples).
* A `net.IP` is a byte slice; `none : Option IP` is the nil slice.
* A Go `error` is `Option GoError`; `none` is the nil error.
* The functions of the standard library that the package calls (`net.IP.String`,
  `net.ParseIP`, `strings.TrimSpace`, the HTTP round trip) are fields of a `World` and every
  general theorem holds for every `World`.
* A call of a source leaves a record: `Source.call` returns the answer of the source and
  adds the call to the calls the sources have received; a run of `ResolveExternalIP` is a
  `Resolution`, what the method returns and the calls its goroutines made.
* The goroutines of `ResolveExternalIP` are a `Schedule`: the order in which the voter
  goroutines take the lock, the order in which `range` walks the map, whether the `done`
  channel is ready when the `select` runs under a cancelled context, and the case the
  `select` picks when both are ready.
-/

namespace geoip

/-! ## Values of the Go runtime and standard library -/

/-- A non-nil Go error value: the package variable `ErrNoIP`, or an error made by
`errors.New` / `fmt.Errorf` (here or elsewhere), told apart by its message. -/
inductive GoError where
  | ErrNoIP
  | created (msg : String)
  deriving DecidableEq, Repr

/-- A non-nil `net.IP`: the bytes of the slice. -/
abbrev IP := List Nat

/-- A `context.Context` as the call sees it: `Err` is `ctx.Err()`, nil until the context is
cancelled or its deadline passes; `ctx.Done()` is ready exactly when `Err` is non-nil. -/
structure Context where
  Err : Option GoError

/-- The platform and the standard-library functions called by the package. `uintBits` is
the width of Go's `uint` (32 or 64). `fetch ctx protocol url` is the outcome of lines 59-97
of `http.go`: building the request, `client.Do` through the dialer that filters on
`protocol`, and `io.ReadAll` of the body. -/
structure World where
  uintBits : Nat
  ipString : IP → String
  ParseIP : String → Option IP
  TrimSpace : String → String
  fetch : Context → Nat → String → Except GoError String

/-- Arithmetic on `uint` is modulo `uintMod`. -/
def World.uintMod (w : World) : Nat :=
  2 ^ w.uintBits

/-! ## http.go -/

/-- The Go type `ContentParser`, a `func(string) (string, error)`. -/
abbrev ContentParser := String → String × Option GoError

/-- The Go struct `HTTPSource`; `parser = none` is the nil func. -/
structure HTTPSource where
  url : String
  parser : Option ContentParser

/-- The Go function `NewHTTPSource`. -/
def NewHTTPSource (url : String) : HTTPSource :=
  ⟨url, none⟩

/-- The Go method `HTTPSource.WithParser`. -/
def HTTPSource.WithParser (s : HTTPSource) (parser : Option ContentParser) : HTTPSource :=
  ⟨s.url, parser⟩

/-- The Go method `HTTPSource.IP`: the pair `(net.IP, error)` it returns. -/
def HTTPSource.IP (w : World) (s : HTTPSource) (ctx : Context) (protocol : Nat) :
    Option IP × Option GoError :=
  match w.fetch ctx protocol s.url with
  | .error err => (none, some err)
  | .ok body =>
    let parsed : String × Option GoError :=
      match s.parser with
      | none => (body, none)
      | some parser => parser body
    match parsed with
    | (_, some err) => (none, some err)
    | (raw, none) =>
      match w.ParseIP (w.TrimSpace raw) with
      | none => (none, some (GoError.created ("returned an invalid IP: " ++ raw)))
      | some externalIP => (some externalIP, none)

/-! ## consensus.go -/

/-- A non-nil value of the Go interface `Source`: the package's own `*HTTPSource`, or any
other implementation, given by what its `IP` method returns. -/
inductive Source where
  | http (s : HTTPSource)
  | impl (ip : Context → Nat → Option IP × Option GoError)

/-- The interface method `Source.IP`. -/
def Source.IP (w : World) : Source → Context → Nat → Option IP × Option GoError
  | Source.http s, ctx, protocol => s.IP w ctx protocol
  | Source.impl ip, ctx, protocol => ip ctx protocol

/-- The Go struct `voter`; `source = none` is the nil interface. -/
structure voter where
  source : Option Source
  weight : Nat

/-- The Go struct `Consensus`; `timeout` is a `time.Duration` in nanoseconds. -/
structure Consensus where
  voters : List voter
  timeout : Nat
  protocol : Nat

/-- The Go function `NewConsensus`: the new value and the (nil) error. -/
def NewConsensus : Consensus × Option GoError :=
  (⟨[], 1000000000 * 30, 0⟩, none)

/-- The Go method `Consensus.AddVoter`: the receiver after the call and the error. -/
def Consensus.AddVoter (c : Consensus) (source : Option Source) (weight : Nat) :
    Consensus × Option GoError :=
  if source.isNone then (c, some (GoError.created "no sources provided"))
  else if weight = 0 then (c, some (GoError.created "weight cannot be 0"))
  else (⟨c.voters ++ [⟨source, weight⟩], c.timeout, c.protocol⟩, none)

/-- The Go method `Consensus.UseIPProtocol`: the receiver after the call and the error. -/
def Consensus.UseIPProtocol (c : Consensus) (protocol : Nat) : Consensus × Option GoError :=
  if protocol ≠ 0 ∧ protocol ≠ 4 ∧ protocol ≠ 6 then
    (c, some (GoError.created "only ipv4 and ipv6 protocol is supported"))
  else (⟨c.voters, c.timeout, protocol⟩, none)

/-- The Go function `DefaultConsensus`: the pointer (nil on error) and the error. -/
def DefaultConsensus : Option Consensus × Option GoError :=
  let (c, err) := NewConsensus
  if err.isSome then (none, err) else
  let (c, err) := c.AddVoter (some (Source.http (NewHTTPSource "https://icanhazip.com/"))) 3
  if err.isSome then (none, err) else
  let (c, err) := c.AddVoter (some (Source.http (NewHTTPSource "https://myexternalip.com/raw"))) 3
  if err.isSome then (none, err) else
  let (c, err) := c.AddVoter (some (Source.http (NewHTTPSource "http://ifconfig.io/ip"))) 1
  if err.isSome then (none, err) else
  let (c, err) := c.AddVoter (some (Source.http (NewHTTPSource "http://checkip.amazonaws.com/"))) 1
  if err.isSome then (none, err) else
  let (c, err) := c.AddVoter (some (Source.http (NewHTTPSource "http://ident.me/"))) 1
  if err.isSome then (none, err) else
  let (c, err) := c.AddVoter (some (Source.http (NewHTTPSource "http://whatismyip.akamai.com/"))) 1
  if err.isSome then (none, err) else
  let (c, err) := c.AddVoter (some (Source.http (NewHTTPSource "http://myip.dnsomatic.com/"))) 1
  if err.isSome then (none, err) else
  let (c, err) := c.AddVoter (some (Source.http (NewHTTPSource "http://diagnostic.opendns.com/myip"))) 1
  if err.isSome then (none, err) else
  (some c, none)

/-- The Go map `voteCollection`, a `map[string]uint`, as its entries. -/
abbrev VoteCollection := List (String × Nat)

/-- The map read `voteCollection[key]`: the zero value when the key is absent. -/
def VoteCollection.get : VoteCollection → String → Nat
  | [], _ => 0
  | (k, n) :: t, key => if k = key then n else VoteCollection.get t key

/-- The statement `voteCollection[key] += weight` on a `uint` that wraps modulo `m`. -/
def VoteCollection.add (m : Nat) : VoteCollection → String → Nat → VoteCollection
  | [], key, weight => [(key, (0 + weight) % m)]
  | (k, n) :: t, key, weight =>
    if k = key then (k, (n + weight) % m) :: t
    else (k, n) :: VoteCollection.add m t key weight

/-- One call `v.source.IP(ctx, c.protocol)` made by a voter goroutine. -/
structure Call where
  source : Source
  ctx : Context
  protocol : Nat

/-- The call `source.IP(ctx, protocol)` as a goroutine makes it: the answer of the source,
and the record of the calls received by the sources with this call added. -/
def Source.call (w : World) (source : Source) (ctx : Context) (protocol : Nat)
    (calls : List Call) : (Option geoip.IP × Option GoError) × List Call :=
  (source.IP w ctx protocol, calls ++ [⟨source, ctx, protocol⟩])

/-- What the voter goroutines share: the map, and the calls received by the sources so
far. -/
structure Votes where
  voteCollection : VoteCollection
  calls : List Call

/-- The body of one voter goroutine (lines 113-121), run under the lock. `none` is the
nil-interface panic of calling `IP` on a nil `source`. -/
def castVote (w : World) (ctx : Context) (protocol : Nat) (st : Votes) (v : voter) :
    Option Votes :=
  match v.source with
  | none => none
  | some source =>
    match source.call w ctx protocol st.calls with
    | ((some ip, none), calls) =>
      some ⟨st.voteCollection.add w.uintMod (w.ipString ip) v.weight, calls⟩
    | (_, calls) => some ⟨st.voteCollection, calls⟩

/-- All voter goroutines, in the order in which they complete. -/
def castVotes (w : World) (ctx : Context) (protocol : Nat) :
    Votes → List voter → Option Votes
  | st, [] => some st
  | st, v :: vs =>
    match castVote w ctx protocol st v with
    | none => none
    | some st1 => castVotes w ctx protocol st1 vs

/-- One step of the loop of lines 152-156 on the pair `(max, externalIP)`. -/
def scanStep (acc : Nat × String) (entry : String × Nat) : Nat × String :=
  if entry.2 > acc.1 then (entry.2, entry.1) else acc

/-- The loop of lines 145-156 over the map entries in the order `range` yields them. -/
def scanVotes (entries : VoteCollection) : Nat × String :=
  entries.foldl scanStep (0, "")

/-- The scheduling choices of one call of `ResolveExternalIP`. -/
structure Schedule where
  /-- the order in which the voter goroutines complete -/
  order : List voter → List voter
  /-- the order in which `range voteCollection` yields the entries -/
  iter : VoteCollection → VoteCollection
  /-- under a cancelled context: all voters have completed and `done` is ready when the
  `select` runs -/
  allDone : Bool
  /-- the case the `select` picks when both `done` and `ctx.Done()` are ready -/
  pickDone : Bool

/-- A schedule only reorders: every voter goroutine completes once and `range` yields
every entry once. -/
def Schedule.Fair (s : Schedule) : Prop :=
  (∀ l, (s.order l).Perm l) ∧ (∀ t, (s.iter t).Perm t)

/-- The `select` of lines 133-137: does it proceed through `case <-done`? With no
cancellation it blocks until `done` is ready. -/
def selectsDone (ctx : Context) (s : Schedule) : Bool :=
  match ctx.Err with
  | none => true
  | some _ => s.allDone && s.pickDone

/-- The state the voter goroutines of one call reach (nil-source panic: `none`). -/
def collectVotes (w : World) (c : Consensus) (ctx : Context) (s : Schedule) : Option Votes :=
  castVotes w ctx c.protocol ⟨[], []⟩ (s.order c.voters)

/-- One run of the Go method `Consensus.ResolveExternalIP`: the pair `(net.IP, error)` it
returns, and the calls that the sources receive from the goroutines it starts. -/
structure Resolution where
  ip : Option IP
  err : Option GoError
  calls : List Call

/-- The body of the Go method `Consensus.ResolveExternalIP` (lines 105-161) as one run;
`none` is the panic of a voter with a nil source. -/
def Consensus.resolve (w : World) (c : Consensus) (ctx : Context) (s : Schedule) :
    Option Resolution :=
  match collectVotes w c ctx s with
  | none => none
  | some st =>
    if selectsDone ctx s then
      if st.voteCollection.length = 0 then some ⟨none, some GoError.ErrNoIP, st.calls⟩
      else some ⟨w.ParseIP (scanVotes (s.iter st.voteCollection)).2, none, st.calls⟩
    else some ⟨none, ctx.Err, st.calls⟩

/-- The Go method `Consensus.ResolveExternalIP`: the pair `(net.IP, error)` that its run
returns; the outer `none` is the panic of a voter with a nil source. -/
def Consensus.ResolveExternalIP (w : World) (c : Consensus) (ctx : Context) (s : Schedule) :
    Option (Option IP × Option GoError) :=
  (c.resolve w ctx s).map fun r => (r.ip, r.err)

/-! ## Sequences of configuration calls -/

/-- One call of a registration method, with its arguments. -/
inductive Op where
  | AddVoter (source : Option Source) (weight : Nat)
  | UseIPProtocol (protocol : Nat)

/-- The receiver after one call; the returned error is dropped. -/
def Op.apply (c : Consensus) : Op → Consensus
  | Op.AddVoter source weight => (c.AddVoter source weight).1
  | Op.UseIPProtocol protocol => (c.UseIPProtocol protocol).1

/-- The receiver after a sequence of calls, first call first. -/
def runOps (c : Consensus) (ops : List Op) : Consensus :=
  ops.foldl Op.apply c

/-- The invariant of the data model: every voter has a non-nil source and a weight of at
least 1, and the protocol filter is 0, 4 or 6. -/
def Consensus.WellFormed (c : Consensus) : Prop :=
  (∀ v ∈ c.voters, v.source ≠ none ∧ 1 ≤ v.weight) ∧
    (c.protocol = 0 ∨ c.protocol = 4 ∨ c.protocol = 6)

/-- The filter value as the specification words it: the argument of the most recent
`UseIPProtocol` call that was given 0, 4 or 6, and 0 when there is no such call. -/
def lastAcceptedProtocol (ops : List Op) : Nat :=
  ((ops.filterMap fun op =>
    match op with
    | Op.UseIPProtocol p => if p = 0 ∨ p = 4 ∨ p = 6 then some p else none
    | Op.AddVoter _ _ => none).getLast?).getD 0

/-! ## Quantities the claims speak of -/

/-- Does the voter's source answer with a nil error and a non-nil address whose canonical
text is `key`? -/
def votesFor (w : World) (ctx : Context) (protocol : Nat) (key : String) (v : voter) : Bool :=
  match v.source with
  | none => false
  | some source =>
    match source.IP w ctx protocol with
    | (some ip, none) => w.ipString ip == key
    | _ => false

/-- Does the voter's source answer with an error or a nil address? -/
def voteFails (w : World) (ctx : Context) (protocol : Nat) (v : voter) : Bool :=
  match v.source with
  | none => true
  | some source =>
    match source.IP w ctx protocol with
    | (some _, none) => false
    | _ => true

/-- Did the source answer the call with an error or a nil address? -/
def Call.fails (w : World) (k : Call) : Bool :=
  match k.source.IP w k.ctx k.protocol with
  | (some _, none) => false
  | _ => true

/-- The aggregated weight of an address: the sum, in the natural numbers, of the weights
of the voters that vote for its canonical text. -/
def aggregatedWeight (w : World) (ctx : Context) (protocol : Nat) (vs : List voter)
    (key : String) : Nat :=
  ((vs.filter (votesFor w ctx protocol key)).map voter.weight).sum

/-! ## A concrete world for dotted-quad addresses

The closed examples need values for the `World` fields. The functions below follow Go's
`net.IP.String` and `net.ParseIP` on IPv4 addresses in dotted-quad form. -/

/-- The text `a.b.c.d`. -/
def dottedQuad (a b c d : Nat) : String :=
  toString a ++ "." ++ toString b ++ "." ++ toString c ++ "." ++ toString d

/-- The lower-case hexadecimal digit of a value below 16. -/
def hexDigit (n : Nat) : Char :=
  "0123456789abcdef".toList.getD n '0'

/-- Go's `hexString`: two hexadecimal digits per byte. -/
def hexString (ip : IP) : String :=
  String.mk (ip.flatMap fun b => [hexDigit (b / 16 % 16), hexDigit (b % 16)])

/-- Go's `net.IP.String` for a non-nil slice, away from IPv6 text: `<nil>` for the empty
slice, dotted quad for 4 bytes and for the 16-byte IPv4-mapped form, `?` and the bytes in
hexadecimal for any other length. (A 16-byte slice that is not IPv4-mapped has IPv6 text in
Go, which is outside this fragment; it is rendered here like the other lengths.) -/
def ip4String : IP → String
  | [] => "<nil>"
  | [a, b, c, d] => dottedQuad a b c d
  | [0, 0, 0, 0, 0, 0, 0, 0, 0, 0, 255, 255, a, b, c, d] => dottedQuad a b c d
  | ip => "?" ++ hexString ip

/-- The fields of a text split at each `.`. -/
def splitDots : List Char → List (List Char)
  | [] => [[]]
  | c :: cs =>
    match splitDots cs with
    | [] => [[]]
    | f :: fs => if c = '.' then [] :: f :: fs else (c :: f) :: fs

/-- One decimal field of a dotted quad: 1 to 3 digits, no leading zero, at most 255. -/
def parseOctet (cs : List Char) : Option Nat :=
  if cs.length = 0 ∨ 3 < cs.length then none
  else if ¬ cs.all Char.isDigit then none
  else if 1 < cs.length ∧ cs.head? = some '0' then none
  else
    let n := cs.foldl (fun n c => 10 * n + (c.toNat - 48)) 0
    if 255 < n then none else some n

/-- Go's `net.ParseIP` on dotted-quad text: the 16-byte IPv4-mapped form, and nil for any
text without a `:` that is not a dotted quad (the empty text included). (Text with a `:`
is IPv6 text in Go, which is outside this fragment; it is rejected here.) -/
def parseIP4 (s : String) : Option IP :=
  match (splitDots s.toList).map parseOctet with
  | [some a, some b, some c, some d] =>
    some [0, 0, 0, 0, 0, 0, 0, 0, 0, 0, 255, 255, a, b, c, d]
  | _ => none

/-- A 64-bit world on the dotted-quad fragment, with no network: every HTTP round trip
fails. -/
def ip4World : World :=
  ⟨64, ip4String, parseIP4, String.trim, fun _ _ _ => Except.error (GoError.created "no network")⟩

/-- A source that always answers with the given address and a nil error. -/
def fixedSource (ip : IP) : Source :=
  Source.impl fun _ _ => (some ip, none)

/-- A source that always fails with the given error. -/
def failingSource (msg : String) : Source :=
  Source.impl fun _ _ => (none, some (GoError.created msg))

/-- A context that is not cancelled. -/
def background : Context :=
  ⟨none⟩

/-- A context that has been cancelled. -/
def cancelled : Context :=
  ⟨some (GoError.created "context canceled")⟩

/-- Goroutines complete in registration order, `range` walks in insertion order, and
`done` wins the `select` whenever it can. -/
def inOrder : Schedule :=
  ⟨id, id, true, true⟩

/-- Goroutines complete in reverse order and `range` walks in reverse. -/
def reversed : Schedule :=
  ⟨List.reverse, List.reverse, true, true⟩

/-- A consensus built from `NewConsensus` by `AddVoter` calls. -/
def consensusOf (vs : List (Source × Nat)) : Consensus :=
  runOps NewConsensus.1 (vs.map fun p => Op.AddVoter (some p.1) p.2)

/-- Scenario A: weights 3, 1, 1 voting 1.1.1.1, 1.1.1.1, 2.2.2.2. -/
def scenarioA : Consensus :=
  consensusOf [(fixedSource [1, 1, 1, 1], 3), (fixedSource [1, 1, 1, 1], 1),
    (fixedSource [2, 2, 2, 2], 1)]

/-- Scenario B: weights 1, 1 voting 2.2.2.2 and a failing voter of weight 5. -/
def scenarioB : Consensus :=
  consensusOf [(fixedSource [2, 2, 2, 2], 1), (fixedSource [2, 2, 2, 2], 1),
    (failingSource "network error", 5)]

/-- Scenario C: a single failing voter of weight 1. -/
def scenarioC : Consensus :=
  consensusOf [(failingSource "network error", 1)]

/-- Scenario D: weights 1, 1 voting 3.3.3.3 and 4.4.4.4. -/
def scenarioD : Consensus :=
  consensusOf [(fixedSource [3, 3, 3, 3], 1), (fixedSource [4, 4, 4, 4], 1)]

/-- Two voters of weight `2 ^ 63` voting 1.1.1.1. -/
def twoHalves : Consensus :=
  consensusOf [(fixedSource [1, 1, 1, 1], 2 ^ 63), (fixedSource [1, 1, 1, 1], 2 ^ 63)]

/-- Two voters of weight `2 ^ 63` voting 1.1.1.1 and one of weight 1 voting 2.2.2.2. -/
def twoHalvesAndOne : Consensus :=
  consensusOf [(fixedSource [1, 1, 1, 1], 2 ^ 63), (fixedSource [1, 1, 1, 1], 2 ^ 63),
    (fixedSource [2, 2, 2, 2], 1)]

/-- One voter of weight 1 whose source answers with a 3-byte slice and a nil error. -/
def threeBytes : Consensus :=
  consensusOf [(fixedSource [1, 2, 3], 1)]

/-- The URL of a voter whose source is an `*HTTPSource`; `none` for any other source. -/
def voter.url (v : voter) : Option String :=
  match v.source with
  | some (Source.http s) => some s.url
  | _ => none

/-- Is the URL transport-secured: does it start with `https://`? -/
def securedURL (url : String) : Bool :=
  url.toList.take 8 == "https://".toList

/-- Is the URL plain: does it start with `http://`? -/
def plainURL (url : String) : Bool :=
  url.toList.take 7 == "http://".toList

/-- Is the voter's source an `*HTTPSource` with a transport-secured URL? -/
def voter.secured (v : voter) : Bool :=
  match v.url with
  | some url => securedURL url
  | none => false

/-- Is the voter's source an `*HTTPSource` with a plain URL? -/
def voter.plain (v : voter) : Bool :=
  match v.url with
  | some url => plainURL url
  | none => false

end geoip

/-! # tzlocal: the zone name from the path of the zone file

A shallow embedding of `inferFromPath` of `times/internal/tzlocal/tz_unix.go`. A Go
`string` is the list of its bytes, each byte a character; for ASCII text this is the text
itself, and `/` is a single byte in every encoding of a path. -/

namespace tzlocal

/-- The error `fmt.Errorf("cannot infer timezone name from path: %q", p)`, told by the path
it quotes. -/
inductive TzError where
  | cannotInfer (p : List Char)
  deriving DecidableEq, Repr

/-- Go's `os.PathSeparator` on the platforms the file is built for (`!windows`). -/
def PathSeparator : Char :=
  '/'

/-- The index just after the last `/` of the text, 0 when there is none: `i + 1` for
`i := strings.LastIndex(path, "/")` in Go's `path.Split`. -/
def afterLastSlash : List Char → Nat
  | [] => 0
  | c :: cs =>
    if afterLastSlash cs = 0 then (if c = '/' then 1 else 0) else afterLastSlash cs + 1

/-- Go's `path.Split`: `path[:i+1]` and `path[i+1:]`, split right after the last `/`. -/
def path.Split (p : List Char) : List Char × List Char :=
  (p.take (afterLastSlash p), p.drop (afterLastSlash p))

/-- The Go function `inferFromPath`: the name and the error it returns. -/
def inferFromPath (p : List Char) : List Char × Option TzError :=
  let (dir, lname) := path.Split p
  if dir.length = 0 ∨ lname.length = 0 then ([], some (TzError.cannotInfer p))
  else
    let (_, fname) := path.Split (dir.take (dir.length - 1))
    if fname = "zoneinfo".toList then (lname, none)
    else (fname ++ [PathSeparator] ++ lname, none)

end tzlocal

namespace geoip

/-! ## The vote map -/

theorem World.uintMod_pos (w : World) : 0 < w.uintMod :=
  Nat.two_pow_pos w.uintBits

theorem VoteCollection.get_add (m : Nat) (t : VoteCollection) (k key : String) (x : Nat) :
    (t.add m k x).get key = if k = key then (t.get k + x) % m else t.get key := by
  induction t with
  | nil =>
    by_cases h : k = key <;> simp [VoteCollection.add, VoteCollection.get, h]
  | cons e t ih =>
    obtain ⟨k1, n⟩ := e
    by_cases h1 : k1 = k
    · subst h1
      by_cases h : k1 = key <;> simp [VoteCollection.add, VoteCollection.get, h]
    · by_cases h : k = key
      · subst h
        simp [VoteCollection.add, VoteCollection.get, h1, ih]
      · by_cases h2 : k1 = key
        · subst h2
          simp [VoteCollection.add, VoteCollection.get, h1, h]
        · simp [VoteCollection.add, VoteCollection.get, h1, h2, h, ih]

theorem VoteCollection.mem_keys_add (m : Nat) (t : VoteCollection) (k key : String) (x : Nat) :
    key ∈ (t.add m k x).map Prod.fst ↔ key = k ∨ key ∈ t.map Prod.fst := by
  induction t with
  | nil => simp [VoteCollection.add]
  | cons e t ih =>
    obtain ⟨k1, n⟩ := e
    by_cases h1 : k1 = k
    · subst h1
      simp [VoteCollection.add]
    · simp only [VoteCollection.add, h1, if_false, List.map_cons, List.mem_cons, ih]
      tauto

theorem VoteCollection.nodup_keys_add (m : Nat) (t : VoteCollection) (k : String) (x : Nat)
    (h : (t.map Prod.fst).Nodup) : ((t.add m k x).map Prod.fst).Nodup := by
  induction t with
  | nil => simp [VoteCollection.add]
  | cons e t ih =>
    obtain ⟨k1, n⟩ := e
    rw [List.map_cons, List.nodup_cons] at h
    by_cases h1 : k1 = k
    · subst h1
      simp only [VoteCollection.add, if_true, List.map_cons, List.nodup_cons]
      exact h
    · simp only [VoteCollection.add, h1, if_false, List.map_cons, List.nodup_cons]
      refine ⟨?_, ih h.2⟩
      rw [VoteCollection.mem_keys_add]
      rintro (h2 | h2)
      · exact h1 h2
      · exact h.1 h2

theorem VoteCollection.bound_add (m : Nat) (t : VoteCollection) (k : String) (x : Nat)
    (hm : 0 < m) (h : ∀ e ∈ t, e.2 < m) : ∀ e ∈ t.add m k x, e.2 < m := by
  induction t with
  | nil =>
    intro e he
    simp only [VoteCollection.add, List.mem_singleton] at he
    subst he
    exact Nat.mod_lt _ hm
  | cons e0 t ih =>
    obtain ⟨k1, n⟩ := e0
    intro e he
    by_cases h1 : k1 = k
    · simp only [VoteCollection.add, h1, if_true, List.mem_cons] at he
      rcases he with he | he
      · subst he
        exact Nat.mod_lt _ hm
      · exact h e (List.mem_cons_of_mem _ he)
    · simp only [VoteCollection.add, h1, if_false, List.mem_cons] at he
      rcases he with he | he
      · subst he
        exact h _ (List.mem_cons_self _ _)
      · exact ih (fun e1 h2 => h e1 (List.mem_cons_of_mem _ h2)) e he

theorem VoteCollection.get_of_mem (t : VoteCollection) (k : String) (n : Nat)
    (hnd : (t.map Prod.fst).Nodup) (h : (k, n) ∈ t) : t.get k = n := by
  induction t with
  | nil => simp at h
  | cons e t ih =>
    obtain ⟨k1, n1⟩ := e
    rw [List.map_cons, List.nodup_cons] at hnd
    rcases List.mem_cons.1 h with h1 | h1
    · injection h1 with hk hn
      subst hk
      subst hn
      simp [VoteCollection.get]
    · have hne : k1 ≠ k := by
        rintro rfl
        exact hnd.1 (List.mem_map.2 ⟨(k1, n), h1, rfl⟩)
      simp [VoteCollection.get, hne, ih hnd.2 h1]

theorem VoteCollection.get_lt (m : Nat) (t : VoteCollection) (key : String) (hm : 0 < m)
    (h : ∀ e ∈ t, e.2 < m) : t.get key < m := by
  induction t with
  | nil => simpa [VoteCollection.get] using hm
  | cons e t ih =>
    obtain ⟨k1, n⟩ := e
    by_cases h1 : k1 = key
    · simpa [VoteCollection.get, h1] using h (k1, n) (List.mem_cons_self _ _)
    · simpa [VoteCollection.get, h1] using ih (fun e1 h2 => h e1 (List.mem_cons_of_mem _ h2))

/-! ## The voter goroutines -/

theorem aggregatedWeight_cons (w : World) (ctx : Context) (p : Nat) (v : voter)
    (vs : List voter) (key : String) :
    aggregatedWeight w ctx p (v :: vs) key =
      (if votesFor w ctx p key v = true then v.weight else 0) +
        aggregatedWeight w ctx p vs key := by
  unfold aggregatedWeight
  by_cases h : votesFor w ctx p key v = true <;> simp [List.filter_cons, h]

theorem aggregatedWeight_perm (w : World) (ctx : Context) (p : Nat) (key : String)
    {l1 l2 : List voter} (h : l1.Perm l2) :
    aggregatedWeight w ctx p l1 key = aggregatedWeight w ctx p l2 key :=
  ((h.filter _).map _).sum_eq

theorem castVote_spec (w : World) (ctx : Context) (p : Nat) (st : Votes) (v : voter)
    (hv : v.source ≠ none) :
    ∃ st1, castVote w ctx p st v = some st1 ∧
      (∀ key, st1.voteCollection.get key =
        if votesFor w ctx p key v = true then (st.voteCollection.get key + v.weight) % w.uintMod
        else st.voteCollection.get key) ∧
      (∀ key, key ∈ st1.voteCollection.map Prod.fst ↔
        key ∈ st.voteCollection.map Prod.fst ∨ votesFor w ctx p key v = true) ∧
      ((st.voteCollection.map Prod.fst).Nodup → (st1.voteCollection.map Prod.fst).Nodup) ∧
      ((∀ e ∈ st.voteCollection, e.2 < w.uintMod) → ∀ e ∈ st1.voteCollection, e.2 < w.uintMod) ∧
      (st1.calls.map fun k => some k.source) = (st.calls.map fun k => some k.source) ++ [v.source] ∧
      (∀ k ∈ st1.calls, k ∈ st.calls ∨ (k.ctx = ctx ∧ k.protocol = p)) := by
  cases hsrc : v.source with
  | none => exact absurd hsrc hv
  | some src =>
    have hcalls : ∀ k ∈ st.calls ++ [(⟨src, ctx, p⟩ : Call)],
        k ∈ st.calls ∨ (k.ctx = ctx ∧ k.protocol = p) := by
      intro k hk
      rcases List.mem_append.1 hk with hk | hk
      · exact Or.inl hk
      · rw [List.mem_singleton] at hk
        subst hk
        exact Or.inr ⟨rfl, rfl⟩
    rcases hres : src.IP w ctx p with ⟨oip, oerr⟩
    cases oip with
    | none =>
      refine ⟨⟨st.voteCollection, st.calls ++ [⟨src, ctx, p⟩]⟩, ?_, ?_, ?_, ?_, ?_, ?_, hcalls⟩
      · simp [castVote, Source.call, hsrc, hres]
      · intro key
        simp [votesFor, hsrc, hres]
      · intro key
        simp [votesFor, hsrc, hres]
      · exact id
      · exact id
      · simp
    | some ip =>
      cases oerr with
      | some err =>
        refine ⟨⟨st.voteCollection, st.calls ++ [⟨src, ctx, p⟩]⟩, ?_, ?_, ?_, ?_, ?_, ?_, hcalls⟩
        · simp [castVote, Source.call, hsrc, hres]
        · intro key
          simp [votesFor, hsrc, hres]
        · intro key
          simp [votesFor, hsrc, hres]
        · exact id
        · exact id
        · simp
      | none =>
        refine ⟨⟨st.voteCollection.add w.uintMod (w.ipString ip) v.weight, st.calls ++ [⟨src, ctx, p⟩]⟩,
          ?_, ?_, ?_, ?_, ?_, ?_, hcalls⟩
        · simp [castVote, Source.call, hsrc, hres]
        · intro key
          rw [VoteCollection.get_add]
          by_cases h : w.ipString ip = key
          · subst h
            simp [votesFor, hsrc, hres]
          · simp [votesFor, hsrc, hres, h]
        · intro key
          rw [VoteCollection.mem_keys_add]
          simp only [votesFor, hsrc, hres, beq_iff_eq]
          constructor
          · rintro (h | h)
            · exact Or.inr h.symm
            · exact Or.inl h
          · rintro (h | h)
            · exact Or.inr h
            · exact Or.inl h.symm
        · exact VoteCollection.nodup_keys_add _ _ _ _
        · exact VoteCollection.bound_add _ _ _ _ w.uintMod_pos
        · simp

theorem castVotes_spec (w : World) (ctx : Context) (p : Nat) (vs : List voter) :
    ∀ st : Votes, (∀ v ∈ vs, v.source ≠ none) →
    ∃ st1, castVotes w ctx p st vs = some st1 ∧
      (∀ key, st1.voteCollection.get key % w.uintMod =
        (st.voteCollection.get key + aggregatedWeight w ctx p vs key) % w.uintMod) ∧
      (∀ key, key ∈ st1.voteCollection.map Prod.fst ↔
        key ∈ st.voteCollection.map Prod.fst ∨ ∃ v ∈ vs, votesFor w ctx p key v = true) ∧
      ((st.voteCollection.map Prod.fst).Nodup → (st1.voteCollection.map Prod.fst).Nodup) ∧
      ((∀ e ∈ st.voteCollection, e.2 < w.uintMod) → ∀ e ∈ st1.voteCollection, e.2 < w.uintMod) ∧
      (st1.calls.map fun k => some k.source) =
        (st.calls.map fun k => some k.source) ++ vs.map voter.source ∧
      (∀ k ∈ st1.calls, k ∈ st.calls ∨ (k.ctx = ctx ∧ k.protocol = p)) := by
  induction vs with
  | nil =>
    intro st _
    exact ⟨st, rfl, fun key => by simp [aggregatedWeight], fun key => by simp, id, id,
      by simp, fun k hk => Or.inl hk⟩
  | cons v vs ih =>
    intro st hsrc
    obtain ⟨st1, h1, hget1, hkeys1, hnd1, hb1, hc1, hp1⟩ :=
      castVote_spec w ctx p st v (hsrc v (List.mem_cons_self _ _))
    obtain ⟨st2, h2, hget2, hkeys2, hnd2, hb2, hc2, hp2⟩ :=
      ih st1 (fun u hu => hsrc u (List.mem_cons_of_mem _ hu))
    refine ⟨st2, ?_, ?_, ?_, fun h => hnd2 (hnd1 h), fun h => hb2 (hb1 h), ?_, ?_⟩
    · simp [castVotes, h1, h2]
    · intro key
      rw [hget2 key, hget1 key, aggregatedWeight_cons]
      by_cases hv : votesFor w ctx p key v = true
      · simp only [hv, if_true, Nat.mod_add_mod]
        congr 1
        omega
      · simp [hv]
    · intro key
      rw [hkeys2 key, hkeys1 key]
      simp only [List.mem_cons, exists_eq_or_imp, or_assoc]
    · rw [hc2, hc1]
      simp
    · intro k hk
      rcases hp2 k hk with h | h
      · exact hp1 k h
      · exact Or.inr h

theorem exists_voter_of_perm {P : voter → Prop} {l1 l2 : List voter} (h : l1.Perm l2) :
    (∃ v ∈ l1, P v) ↔ ∃ v ∈ l2, P v :=
  ⟨fun ⟨v, hv, hp⟩ => ⟨v, h.mem_iff.1 hv, hp⟩, fun ⟨v, hv, hp⟩ => ⟨v, h.mem_iff.2 hv, hp⟩⟩

/-- What the voter goroutines of one call leave behind, for every completion order. -/
theorem collectVotes_spec (w : World) (c : Consensus) (ctx : Context) (s : Schedule)
    (hs : ∀ l, (s.order l).Perm l) (hsrc : ∀ v ∈ c.voters, v.source ≠ none) :
    ∃ st, collectVotes w c ctx s = some st ∧
      (∀ key, st.voteCollection.get key =
        aggregatedWeight w ctx c.protocol c.voters key % w.uintMod) ∧
      (∀ key, key ∈ st.voteCollection.map Prod.fst ↔
        ∃ v ∈ c.voters, votesFor w ctx c.protocol key v = true) ∧
      (st.voteCollection.map Prod.fst).Nodup ∧
      (st.calls.map fun k => some k.source).Perm (c.voters.map voter.source) ∧
      (∀ k ∈ st.calls, k.ctx = ctx ∧ k.protocol = c.protocol) := by
  have hperm := hs c.voters
  obtain ⟨st, h, hget, hkeys, hnd, hb, hc, hp⟩ :=
    castVotes_spec w ctx c.protocol (s.order c.voters) ⟨[], []⟩
      (fun v hv => hsrc v (hperm.mem_iff.1 hv))
  refine ⟨st, h, ?_, ?_, hnd (by simp), ?_, ?_⟩
  · intro key
    have hlt := VoteCollection.get_lt _ st.voteCollection key w.uintMod_pos (hb (by simp))
    have := hget key
    rw [Nat.mod_eq_of_lt hlt, aggregatedWeight_perm w ctx c.protocol key hperm] at this
    simpa [VoteCollection.get] using this
  · intro key
    rw [hkeys key, exists_voter_of_perm hperm]
    simp
  · rw [hc]
    simpa using hperm.map voter.source
  · intro k hk
    rcases hp k hk with h1 | h1
    · simp at h1
    · exact h1

/-! ## The scan for the maximum -/

theorem scanStep_spec (acc : Nat × String) (e : String × Nat) :
    acc.1 ≤ (scanStep acc e).1 ∧ e.2 ≤ (scanStep acc e).1 ∧
      (scanStep acc e = acc ∨ (scanStep acc e = (e.2, e.1) ∧ acc.1 < e.2)) := by
  unfold scanStep
  by_cases h : e.2 > acc.1
  · rw [if_pos h]
    exact ⟨Nat.le_of_lt h, Nat.le_refl _, Or.inr ⟨rfl, h⟩⟩
  · rw [if_neg h]
    exact ⟨Nat.le_refl _, Nat.le_of_not_lt h, Or.inl rfl⟩

theorem scan_foldl_spec (l : VoteCollection) : ∀ acc : Nat × String,
    acc.1 ≤ (l.foldl scanStep acc).1 ∧ (∀ e ∈ l, e.2 ≤ (l.foldl scanStep acc).1) ∧
      (l.foldl scanStep acc = acc ∨
        (((l.foldl scanStep acc).2, (l.foldl scanStep acc).1) ∈ l ∧
          acc.1 < (l.foldl scanStep acc).1)) := by
  induction l with
  | nil =>
    intro acc
    simp
  | cons e l ih =>
    intro acc
    obtain ⟨h1, h2, h3⟩ := ih (scanStep acc e)
    obtain ⟨g1, g2, g3⟩ := scanStep_spec acc e
    simp only [List.foldl_cons]
    refine ⟨Nat.le_trans g1 h1, ?_, ?_⟩
    · intro e1 he1
      rcases List.mem_cons.1 he1 with he1 | he1
      · subst he1
        exact Nat.le_trans g2 h1
      · exact h2 e1 he1
    · rcases h3 with h3 | ⟨h3, h4⟩
      · rcases g3 with g3 | ⟨g3, g4⟩
        · left
          rw [h3, g3]
        · right
          rw [h3, g3]
          exact ⟨List.mem_cons_self _ _, g4⟩
      · right
        exact ⟨List.mem_cons_of_mem _ h3, Nat.lt_of_le_of_lt g1 h4⟩

/-- The scan over any walk of a map with a non-zero entry ends on an entry of the map whose
count is the greatest. -/
theorem scanVotes_spec (t l : VoteCollection) (hl : l.Perm t) (hpos : ∃ e ∈ t, 0 < e.2) :
    ((scanVotes l).2, (scanVotes l).1) ∈ t ∧ ∀ e ∈ t, e.2 ≤ (scanVotes l).1 := by
  obtain ⟨_, h2, h3⟩ := scan_foldl_spec l (0, "")
  obtain ⟨e, he, hpos⟩ := hpos
  have hge := h2 e (hl.mem_iff.2 he)
  refine ⟨?_, fun e1 he1 => h2 e1 (hl.mem_iff.2 he1)⟩
  rcases h3 with h3 | ⟨h3, _⟩
  · rw [h3] at hge
    exact absurd hge (Nat.not_le_of_lt hpos)
  · exact hl.mem_iff.1 h3

/-! ## ResolveExternalIP -/

theorem resolve_of_done (w : World) (c : Consensus) (ctx : Context) (s : Schedule) (st : Votes)
    (h : collectVotes w c ctx s = some st) (hd : selectsDone ctx s = true) :
    c.ResolveExternalIP w ctx s =
      if st.voteCollection.length = 0 then some (none, some GoError.ErrNoIP)
      else some (w.ParseIP (scanVotes (s.iter st.voteCollection)).2, none) := by
  unfold Consensus.ResolveExternalIP Consensus.resolve
  rw [h]
  simp only [hd, if_true]
  by_cases hlen : st.voteCollection.length = 0
  · rw [if_pos hlen, if_pos hlen]
    rfl
  · rw [if_neg hlen, if_neg hlen]
    rfl

theorem resolve_of_not_done (w : World) (c : Consensus) (ctx : Context) (s : Schedule)
    (st : Votes) (h : collectVotes w c ctx s = some st) (hd : selectsDone ctx s = false) :
    c.ResolveExternalIP w ctx s = some (none, ctx.Err) := by
  unfold Consensus.ResolveExternalIP Consensus.resolve
  rw [h]
  simp only [hd, Bool.false_eq_true, if_false]
  rfl

theorem resolve_calls (w : World) (c : Consensus) (ctx : Context) (s : Schedule) (st : Votes)
    (h : collectVotes w c ctx s = some st) :
    ∃ r, c.resolve w ctx s = some r ∧ r.calls = st.calls ∧
      c.ResolveExternalIP w ctx s = some (r.ip, r.err) := by
  unfold Consensus.ResolveExternalIP Consensus.resolve
  rw [h]
  by_cases hd : selectsDone ctx s = true
  · by_cases hlen : st.voteCollection.length = 0
    · simp only [hd, if_true, if_pos hlen]
      exact ⟨_, rfl, rfl, rfl⟩
    · simp only [hd, if_true, if_neg hlen]
      exact ⟨_, rfl, rfl, rfl⟩
  · simp only [hd, if_false]
    exact ⟨_, rfl, rfl, rfl⟩

theorem selectsDone_of_not_cancelled (ctx : Context) (s : Schedule) (h : ctx.Err = none) :
    selectsDone ctx s = true := by
  simp [selectsDone, h]

theorem aggregatedWeight_ge (w : World) (ctx : Context) (p : Nat) (key : String) (v : voter)
    (vs : List voter) (hv : v ∈ vs) (hvote : votesFor w ctx p key v = true) :
    v.weight ≤ aggregatedWeight w ctx p vs key := by
  induction vs with
  | nil => simp at hv
  | cons u vs ih =>
    rw [aggregatedWeight_cons]
    rcases List.mem_cons.1 hv with h | h
    · subst h
      simp [hvote]
    · exact Nat.le_trans (ih h) (Nat.le_add_left _ _)

theorem voteFails_iff (w : World) (ctx : Context) (p : Nat) (v : voter) :
    voteFails w ctx p v = true ↔ ∀ key, votesFor w ctx p key v = false := by
  unfold voteFails votesFor
  cases v.source with
  | none => simp
  | some src =>
    rcases hres : src.IP w ctx p with ⟨oip, oerr⟩
    cases oip with
    | none => simp [hres]
    | some ip =>
      cases oerr with
      | some err => simp [hres]
      | none =>
        simp only [hres, Bool.false_eq_true, beq_eq_false_iff_ne, ne_eq, false_iff, not_forall,
          not_not]
        exact ⟨w.ipString ip, rfl⟩

theorem voteCollection_empty_iff (w : World) (ctx : Context) (p : Nat) (vs : List voter)
    (t : VoteCollection)
    (hkeys : ∀ key, key ∈ t.map Prod.fst ↔ ∃ v ∈ vs, votesFor w ctx p key v = true) :
    t.length = 0 ↔ ∀ v ∈ vs, voteFails w ctx p v = true := by
  constructor
  · intro h v hv
    rw [voteFails_iff]
    intro key
    by_contra hne
    have hmem := (hkeys key).2 ⟨v, hv, by simpa using hne⟩
    rw [List.length_eq_zero] at h
    simp [h] at hmem
  · intro h
    cases t with
    | nil => rfl
    | cons e t =>
      obtain ⟨v, hv, hvote⟩ := (hkeys e.1).1 (by simp)
      have := (voteFails_iff w ctx p v).1 (h v hv) e.1
      rw [hvote] at this
      exact absurd this (by simp)

theorem voteFails_eq_fails (w : World) (ctx : Context) (p : Nat) (v : voter) (k : Call)
    (hsrc : v.source = some k.source) (hctx : k.ctx = ctx) (hp : k.protocol = p) :
    voteFails w ctx p v = k.fails w := by
  unfold voteFails Call.fails
  rw [hsrc, hctx, hp]

/-- The voters all fail exactly when the calls received by their sources all fail. -/
theorem voters_fail_iff_calls_fail (w : World) (ctx : Context) (p : Nat) (vs : List voter)
    (calls : List Call)
    (hperm : (calls.map fun k => some k.source).Perm (vs.map voter.source))
    (hcalls : ∀ k ∈ calls, k.ctx = ctx ∧ k.protocol = p) :
    (∀ v ∈ vs, voteFails w ctx p v = true) ↔ ∀ k ∈ calls, k.fails w = true := by
  constructor
  · intro h k hk
    have hmem : some k.source ∈ vs.map voter.source :=
      hperm.mem_iff.1 (List.mem_map.2 ⟨k, hk, rfl⟩)
    obtain ⟨v, hv, hvs⟩ := List.mem_map.1 hmem
    rw [← voteFails_eq_fails w ctx p v k hvs (hcalls k hk).1 (hcalls k hk).2]
    exact h v hv
  · intro h v hv
    have hmem : v.source ∈ calls.map fun k => some k.source :=
      hperm.mem_iff.2 (List.mem_map.2 ⟨v, hv, rfl⟩)
    obtain ⟨k, hk, hks⟩ := List.mem_map.1 hmem
    rw [voteFails_eq_fails w ctx p v k hks.symm (hcalls k hk).1 (hcalls k hk).2]
    exact h k hk

/-! ## Registration keeps the invariant -/

theorem AddVoter_wellFormed (c : Consensus) (source : Option Source) (weight : Nat)
    (h : c.WellFormed) : (c.AddVoter source weight).1.WellFormed := by
  unfold Consensus.AddVoter
  cases source with
  | none => simpa using h
  | some src =>
    by_cases hw : weight = 0
    · simpa [hw] using h
    · simp only [Option.isNone_some, Bool.false_eq_true, if_false, hw]
      refine ⟨?_, h.2⟩
      intro v hv
      rcases List.mem_append.1 hv with hv | hv
      · exact h.1 v hv
      · rw [List.mem_singleton] at hv
        subst hv
        exact ⟨by simp, Nat.one_le_iff_ne_zero.2 hw⟩

theorem UseIPProtocol_wellFormed (c : Consensus) (protocol : Nat) (h : c.WellFormed) :
    (c.UseIPProtocol protocol).1.WellFormed := by
  unfold Consensus.UseIPProtocol
  by_cases hp : protocol ≠ 0 ∧ protocol ≠ 4 ∧ protocol ≠ 6
  · rw [if_pos hp]
    exact h
  · rw [if_neg hp]
    refine ⟨h.1, ?_⟩
    show protocol = 0 ∨ protocol = 4 ∨ protocol = 6
    omega

theorem runOps_wellFormed (ops : List Op) :
    ∀ c : Consensus, c.WellFormed → (runOps c ops).WellFormed := by
  induction ops with
  | nil =>
    intro c h
    exact h
  | cons op ops ih =>
    intro c h
    cases op with
    | AddVoter source weight => exact ih _ (AddVoter_wellFormed c source weight h)
    | UseIPProtocol protocol => exact ih _ (UseIPProtocol_wellFormed c protocol h)

theorem NewConsensus_wellFormed : NewConsensus.1.WellFormed :=
  ⟨fun _ hv => absurd hv (List.not_mem_nil _), Or.inl rfl⟩

theorem consensusOf_voters (vs : List (Source × Nat)) :
    ∀ v ∈ (consensusOf vs).voters, v.source ≠ none ∧ 1 ≤ v.weight :=
  (runOps_wellFormed _ _ NewConsensus_wellFormed).1

theorem fair_inOrder : inOrder.Fair :=
  ⟨fun l => List.Perm.refl l, fun t => List.Perm.refl t⟩

theorem fair_reversed : reversed.Fair :=
  ⟨fun l => List.reverse_perm l, fun t => List.reverse_perm t⟩

/-! ## The protocol filter after a sequence of calls -/

theorem getLast?_getD_cons (x : Nat) (l : List Nat) (d : Nat) :
    ((x :: l).getLast?).getD d = (l.getLast?).getD x := by
  cases l with
  | nil => rfl
  | cons y l =>
    rw [List.getLast?_cons_cons, List.getLast?_eq_getLast _ (List.cons_ne_nil y l)]
    rfl

theorem UseIPProtocol_rejected (c : Consensus) (p : Nat) (h : ¬ (p = 0 ∨ p = 4 ∨ p = 6)) :
    c.UseIPProtocol p = (c, some (GoError.created "only ipv4 and ipv6 protocol is supported")) := by
  unfold Consensus.UseIPProtocol
  rw [if_pos (by omega)]

theorem UseIPProtocol_accepted (c : Consensus) (p : Nat) (h : p = 0 ∨ p = 4 ∨ p = 6) :
    c.UseIPProtocol p = (⟨c.voters, c.timeout, p⟩, none) := by
  unfold Consensus.UseIPProtocol
  rw [if_neg (by omega)]

theorem AddVoter_protocol (c : Consensus) (source : Option Source) (weight : Nat) :
    (c.AddVoter source weight).1.protocol = c.protocol := by
  unfold Consensus.AddVoter
  split
  · rfl
  · split <;> rfl

theorem runOps_protocol (ops : List Op) : ∀ c : Consensus,
    (runOps c ops).protocol =
      ((ops.filterMap fun op =>
        match op with
        | Op.UseIPProtocol p => if p = 0 ∨ p = 4 ∨ p = 6 then some p else none
        | Op.AddVoter _ _ => none).getLast?).getD c.protocol := by
  induction ops with
  | nil =>
    intro c
    rfl
  | cons op ops ih =>
    intro c
    show (runOps (Op.apply c op) ops).protocol = _
    rw [ih]
    cases op with
    | AddVoter source weight =>
      simp only [Op.apply, List.filterMap_cons, AddVoter_protocol]
    | UseIPProtocol p =>
      by_cases hp : p = 0 ∨ p = 4 ∨ p = 6
      · simp only [Op.apply, List.filterMap_cons, if_pos hp, UseIPProtocol_accepted c p hp,
          getLast?_getD_cons]
      · simp only [Op.apply, List.filterMap_cons, if_neg hp, UseIPProtocol_rejected c p hp]

theorem DefaultConsensus_eq :
    DefaultConsensus =
      (some (consensusOf
        [(Source.http (NewHTTPSource "https://icanhazip.com/"), 3),
          (Source.http (NewHTTPSource "https://myexternalip.com/raw"), 3),
          (Source.http (NewHTTPSource "http://ifconfig.io/ip"), 1),
          (Source.http (NewHTTPSource "http://checkip.amazonaws.com/"), 1),
          (Source.http (NewHTTPSource "http://ident.me/"), 1),
          (Source.http (NewHTTPSource "http://whatismyip.akamai.com/"), 1),
          (Source.http (NewHTTPSource "http://myip.dnsomatic.com/"), 1),
          (Source.http (NewHTTPSource "http://diagnostic.opendns.com/myip"), 1)]), none) :=
  rfl

/-! ## The claims -/

/-- The strict majority away from the wraparound (the part of C1 the code keeps): for a
Consensus whose voters have a non-nil source and a weight of at least 1, a context that is not cancelled, and any outcomes of the sources: if some voter
votes for an address, the aggregated weight of that address strictly exceeds that of every
other voted address and is below `2 ^ uintBits` (`2 ^ 64` on a 64-bit platform), then
`ResolveExternalIP` returns `net.ParseIP` of the canonical text of that address with a nil
error, for every completion order of the voters and every iteration order of the map. -/
theorem resolve_strict_majority (w : World) (c : Consensus) (ctx : Context) (s : Schedule)
    (key : String)
    (hwf : ∀ v ∈ c.voters, v.source ≠ none ∧ 1 ≤ v.weight)
    (hctx : ctx.Err = none) (hs : s.Fair)
    (hvoted : ∃ v ∈ c.voters, votesFor w ctx c.protocol key v = true)
    (hmax : ∀ other, other ≠ key →
      (∃ v ∈ c.voters, votesFor w ctx c.protocol other v = true) →
      aggregatedWeight w ctx c.protocol c.voters other <
        aggregatedWeight w ctx c.protocol c.voters key)
    (hfit : aggregatedWeight w ctx c.protocol c.voters key < w.uintMod) :
    c.ResolveExternalIP w ctx s = some (w.ParseIP key, none) := by
  obtain ⟨st, hst, hget, hkeys, hnd, _, _⟩ :=
    collectVotes_spec w c ctx s hs.1 (fun v hv => (hwf v hv).1)
  rw [resolve_of_done w c ctx s st hst (selectsDone_of_not_cancelled ctx s hctx)]
  obtain ⟨e, he, hek⟩ := List.mem_map.1 ((hkeys key).2 hvoted)
  have hne : ¬ st.voteCollection.length = 0 := by
    intro h
    rw [List.length_eq_zero] at h
    rw [h] at he
    simp at he
  rw [if_neg hne]
  have heval : e.2 = aggregatedWeight w ctx c.protocol c.voters key := by
    have h1 := VoteCollection.get_of_mem st.voteCollection e.1 e.2 hnd he
    rw [hek, hget key, Nat.mod_eq_of_lt hfit] at h1
    exact h1.symm
  obtain ⟨v, hv, hvote⟩ := hvoted
  have hpos : 0 < e.2 := by
    rw [heval]
    exact Nat.lt_of_lt_of_le (hwf v hv).2 (aggregatedWeight_ge w ctx c.protocol key v _ hv hvote)
  obtain ⟨hin, hmaxr⟩ :=
    scanVotes_spec st.voteCollection (s.iter st.voteCollection) (hs.2 _) ⟨e, he, hpos⟩
  have hwin : (scanVotes (s.iter st.voteCollection)).2 = key := by
    by_contra hne2
    have h1 := VoteCollection.get_of_mem _ _ _ hnd hin
    rw [hget] at h1
    have hvoted2 := (hkeys _).1 (List.mem_map.2 ⟨_, hin, rfl⟩)
    have h2 := hmax _ hne2 hvoted2
    have h3 := hmaxr e he
    have h4 := Nat.mod_le
      (aggregatedWeight w ctx c.protocol c.voters (scanVotes (s.iter st.voteCollection)).2)
      w.uintMod
    omega
  rw [hwin]

/-- C1, the code at the failing inputs, on a 64-bit platform. Two voters of weight `2 ^ 63`
vote 1.1.1.1 and nobody votes anything else: 1.1.1.1 is the only address, its entry wraps
to 0, and the call returns a nil IP, not 1.1.1.1. With a third voter of weight 1 voting
2.2.2.2 the aggregated weight of 1.1.1.1 is `2 ^ 64` against 1, and the call returns
2.2.2.2, the address with the fewest votes. -/
theorem resolve_strict_majority_wraps :
    (aggregatedWeight ip4World background twoHalves.protocol twoHalves.voters "1.1.1.1" =
        2 ^ 64 ∧
      twoHalves.voters.all
        (fun v => votesFor ip4World background twoHalves.protocol "1.1.1.1" v) = true ∧
      twoHalves.ResolveExternalIP ip4World background inOrder = some (none, none) ∧
      ip4World.ParseIP "1.1.1.1" ≠ none) ∧
    (aggregatedWeight ip4World background twoHalvesAndOne.protocol twoHalvesAndOne.voters
        "1.1.1.1" = 2 ^ 64 ∧
      aggregatedWeight ip4World background twoHalvesAndOne.protocol twoHalvesAndOne.voters
        "2.2.2.2" = 1 ∧
      twoHalvesAndOne.voters.all
        (fun v => votesFor ip4World background twoHalvesAndOne.protocol "1.1.1.1" v ||
          votesFor ip4World background twoHalvesAndOne.protocol "2.2.2.2" v) = true ∧
      twoHalvesAndOne.ResolveExternalIP ip4World background inOrder =
        some (ip4World.ParseIP "2.2.2.2", none) ∧
      ip4World.ParseIP "2.2.2.2" ≠ ip4World.ParseIP "1.1.1.1") := by
  decide

/-- Scenario A, with the goroutines completing in reverse order and the map walked in
reverse: 1.1.1.1 has weight 4 against 1 and is returned. -/
theorem resolve_strict_majority_scenarioA :
    scenarioA.ResolveExternalIP ip4World background reversed =
      some (some [0, 0, 0, 0, 0, 0, 0, 0, 0, 0, 255, 255, 1, 1, 1, 1], none) :=
  resolve_strict_majority ip4World scenarioA background reversed "1.1.1.1"
    (consensusOf_voters _) rfl fair_reversed (by decide)
    (by
      intro other hne _
      have h1 : scenarioA.voters =
          [⟨some (fixedSource [1, 1, 1, 1]), 3⟩, ⟨some (fixedSource [1, 1, 1, 1]), 1⟩,
            ⟨some (fixedSource [2, 2, 2, 2]), 1⟩] := rfl
      have h2 : ip4String [1, 1, 1, 1] = "1.1.1.1" := by decide
      have h3 : ip4String [2, 2, 2, 2] = "2.2.2.2" := by decide
      simp [h1, aggregatedWeight, votesFor, fixedSource, Source.IP, ip4World, h2, h3,
        List.filter_cons, Ne.symm hne]
      split <;> simp)
    (by decide)

/-- The map away from the wraparound and at it (the part of C2 the code keeps): for a
Consensus whose voters have a non-nil source and every completion order, all voter goroutines complete, and the map they leave has one entry for each
canonical text that some voter's source returned with a nil error, and no other entry; the
count of an entry is the sum of the weights of the voters that returned that text with a
nil error, reduced modulo `2 ^ uintBits`, and so equal to that sum when it is below
`2 ^ uintBits` (`2 ^ 64` on a 64-bit platform). A voter whose source fails is in none of
these sums, whatever its weight. -/
theorem voteCollection_is_weight_sum (w : World) (c : Consensus) (ctx : Context)
    (s : Schedule) (hs : s.Fair) (hsrc : ∀ v ∈ c.voters, v.source ≠ none) :
    ∃ st, collectVotes w c ctx s = some st ∧
      (∀ e ∈ st.voteCollection,
        e.2 = aggregatedWeight w ctx c.protocol c.voters e.1 % w.uintMod ∧
          ∃ v ∈ c.voters, votesFor w ctx c.protocol e.1 v = true) ∧
      (∀ key, (∃ v ∈ c.voters, votesFor w ctx c.protocol key v = true) →
        ∃ n, (key, n) ∈ st.voteCollection) ∧
      (st.voteCollection.map Prod.fst).Nodup ∧
      (∀ key, aggregatedWeight w ctx c.protocol c.voters key < w.uintMod →
        st.voteCollection.get key = aggregatedWeight w ctx c.protocol c.voters key) ∧
      (∀ key, aggregatedWeight w ctx c.protocol c.voters key =
        aggregatedWeight w ctx c.protocol
          (c.voters.filter fun v => !voteFails w ctx c.protocol v) key) := by
  obtain ⟨st, hst, hget, hkeys, hnd, _, _⟩ := collectVotes_spec w c ctx s hs.1 hsrc
  refine ⟨st, hst, ?_, ?_, hnd, ?_, ?_⟩
  · intro e he
    refine ⟨?_, (hkeys e.1).1 (List.mem_map.2 ⟨e, he, rfl⟩)⟩
    rw [← hget e.1]
    exact (VoteCollection.get_of_mem st.voteCollection e.1 e.2 hnd he).symm
  · intro key hv
    obtain ⟨e, he, hek⟩ := List.mem_map.1 ((hkeys key).2 hv)
    exact ⟨e.2, by rw [← hek]; exact he⟩
  · intro key hlt
    rw [hget key, Nat.mod_eq_of_lt hlt]
  · intro key
    unfold aggregatedWeight
    rw [List.filter_filter]
    congr 2
    apply List.filter_congr
    intro v _
    by_cases hv : votesFor w ctx c.protocol key v = true
    · have hf : voteFails w ctx c.protocol v ≠ true := by
        intro hf
        rw [(voteFails_iff w ctx c.protocol v).1 hf key] at hv
        exact absurd hv (by simp)
      simp [hv, hf]
    · simp [hv]

/-- Scenario B, in reverse completion order: the map is exactly `2.2.2.2: 2`; the
failing voter of weight 5 has no entry. -/
theorem voteCollection_scenarioB :
    ∃ st, collectVotes ip4World scenarioB background reversed = some st ∧
      st.voteCollection.get "2.2.2.2" = 2 ∧ st.voteCollection = [("2.2.2.2", 2)] := by
  obtain ⟨st, hst, _, _, _, hget, _⟩ :=
    voteCollection_is_weight_sum ip4World scenarioB background reversed fair_reversed
      (fun v hv => (consensusOf_voters _ v hv).1)
  refine ⟨st, hst, ?_, ?_⟩
  · rw [hget "2.2.2.2" (by decide)]
    decide
  · have h0 : (collectVotes ip4World scenarioB background reversed).map Votes.voteCollection =
        some [("2.2.2.2", 2)] := by decide
    rw [hst] at h0
    exact Option.some.inj h0

/-- C2, the code at the failing input: on a 64-bit platform two voters of weight `2 ^ 63`
both return 1.1.1.1 with a nil error; the sum of their weights is `2 ^ 64` and the entry of
1.1.1.1 is 0. -/
theorem voteCollection_wraps :
    (collectVotes ip4World twoHalves background inOrder).map Votes.voteCollection =
        some [("1.1.1.1", 0)] ∧
      aggregatedWeight ip4World background twoHalves.protocol twoHalves.voters "1.1.1.1" =
        2 ^ 64 := by
  decide

/-- C3: for a Consensus whose voters have a non-nil source and a context that is not
cancelled, in every schedule: if there are no voters, or every voter's source returns an
error or a nil address, `ResolveExternalIP` returns a nil IP and `ErrNoIP`; and whenever it
returns `ErrNoIP`, every voter's source has returned an error or a nil address. -/
theorem resolve_ErrNoIP_iff (w : World) (c : Consensus) (ctx : Context) (s : Schedule)
    (hs : s.Fair) (hsrc : ∀ v ∈ c.voters, v.source ≠ none) (hctx : ctx.Err = none) :
    ((c.voters = [] ∨ ∀ v ∈ c.voters, voteFails w ctx c.protocol v = true) →
        c.ResolveExternalIP w ctx s = some (none, some GoError.ErrNoIP)) ∧
      (∀ ip, c.ResolveExternalIP w ctx s = some (ip, some GoError.ErrNoIP) →
        ∀ v ∈ c.voters, voteFails w ctx c.protocol v = true) := by
  obtain ⟨st, hst, _, hkeys, _, _, _⟩ := collectVotes_spec w c ctx s hs.1 hsrc
  have hres := resolve_of_done w c ctx s st hst (selectsDone_of_not_cancelled ctx s hctx)
  have hempty := voteCollection_empty_iff w ctx c.protocol c.voters st.voteCollection hkeys
  constructor
  · intro h
    have hall : ∀ v ∈ c.voters, voteFails w ctx c.protocol v = true := by
      rcases h with h | h
      · intro v hv
        rw [h] at hv
        exact absurd hv (List.not_mem_nil _)
      · exact h
    rw [hres, if_pos (hempty.2 hall)]
  · intro ip hip
    by_cases hlen : st.voteCollection.length = 0
    · exact hempty.1 hlen
    · rw [hres, if_neg hlen] at hip
      simp at hip

/-- C3 at Scenario C: the single voter fails and the call returns `ErrNoIP`. -/
theorem resolve_ErrNoIP_scenarioC :
    scenarioC.ResolveExternalIP ip4World background inOrder =
      some (none, some GoError.ErrNoIP) :=
  (resolve_ErrNoIP_iff ip4World scenarioC background inOrder fair_inOrder
    (fun v hv => (consensusOf_voters _ v hv).1) rfl).1 (Or.inr (by decide))

/-- C4, amended: for a Consensus whose voters have a non-nil source and a context that is
already cancelled with error `e`: unless all voters have completed when the `select` runs
and the `select` picks `done`, the call returns a nil IP and exactly `e`; and in every
schedule the call returns either a nil IP and `e`, or, all voters having completed, a nil
IP and `ErrNoIP` when every voter failed, or a nil error when some voter succeeded. -/
theorem resolve_cancelled (w : World) (c : Consensus) (ctx : Context) (s : Schedule)
    (e : GoError) (hs : s.Fair) (hsrc : ∀ v ∈ c.voters, v.source ≠ none)
    (hctx : ctx.Err = some e) :
    ((s.allDone = false ∨ s.pickDone = false) →
        c.ResolveExternalIP w ctx s = some (none, some e)) ∧
      (c.ResolveExternalIP w ctx s = some (none, some e) ∨
        (s.allDone = true ∧ s.pickDone = true ∧
          ((c.ResolveExternalIP w ctx s = some (none, some GoError.ErrNoIP) ∧
              ∀ v ∈ c.voters, voteFails w ctx c.protocol v = true) ∨
            ((∃ ip, c.ResolveExternalIP w ctx s = some (ip, none)) ∧
              ∃ v ∈ c.voters, voteFails w ctx c.protocol v = false)))) := by
  obtain ⟨st, hst, _, hkeys, _, _, _⟩ := collectVotes_spec w c ctx s hs.1 hsrc
  have hempty := voteCollection_empty_iff w ctx c.protocol c.voters st.voteCollection hkeys
  have hsel : selectsDone ctx s = (s.allDone && s.pickDone) := by
    simp [selectsDone, hctx]
  constructor
  · intro h
    have hd : selectsDone ctx s = false := by
      rw [hsel]
      rcases h with h | h <;> simp [h]
    rw [resolve_of_not_done w c ctx s st hst hd, hctx]
  · by_cases hd : selectsDone ctx s = true
    · right
      have hboth : s.allDone = true ∧ s.pickDone = true := by
        rw [hsel] at hd
        simpa using hd
      refine ⟨hboth.1, hboth.2, ?_⟩
      rw [resolve_of_done w c ctx s st hst hd]
      by_cases hlen : st.voteCollection.length = 0
      · left
        rw [if_pos hlen]
        exact ⟨rfl, hempty.1 hlen⟩
      · right
        rw [if_neg hlen]
        refine ⟨⟨_, rfl⟩, ?_⟩
        by_contra hno
        apply hlen
        apply hempty.2
        intro v hv
        by_contra hv2
        exact hno ⟨v, hv, by simpa using hv2⟩
    · left
      rw [resolve_of_not_done w c ctx s st hst (by simpa using hd), hctx]

/-- C4 at Scenario A under a cancelled context, the voters not all complete when the
`select` runs: the call returns the context's error. -/
theorem resolve_cancelled_scenarioA :
    scenarioA.ResolveExternalIP ip4World cancelled ⟨id, id, false, true⟩ =
      some (none, some (GoError.created "context canceled")) :=
  (resolve_cancelled ip4World scenarioA cancelled ⟨id, id, false, true⟩
    (GoError.created "context canceled") ⟨fun l => List.Perm.refl l, fun t => List.Perm.refl t⟩
    (fun v hv => (consensusOf_voters _ v hv).1) rfl).1 (Or.inl rfl)

/-- C4, as stated, fails: under an already cancelled context, when `done` is ready too and
the `select` picks it, a Consensus with no voters returns `ErrNoIP`, and Scenario A, whose
voters complete at once, returns an address. -/
theorem resolve_cancelled_done_first :
    cancelled.Err = some (GoError.created "context canceled") ∧
      NewConsensus.1.ResolveExternalIP ip4World cancelled inOrder =
        some (none, some GoError.ErrNoIP) ∧
      scenarioA.ResolveExternalIP ip4World cancelled inOrder =
        some (some [0, 0, 0, 0, 0, 0, 0, 0, 0, 0, 255, 255, 1, 1, 1, 1], none) := by
  decide

/-- C5, the code at the failing inputs: two voters registered through `AddVoter` with
weight `2 ^ 63` both return 1.1.1.1; the entry of 1.1.1.1 wraps to 0, the scan keeps the
empty text, and the call returns a nil IP with a nil error. And a voter whose source
returns a 3-byte slice with a nil error makes the call return a nil IP with a nil error. -/
theorem resolve_nil_ip_nil_error :
    twoHalves.voters.map voter.weight = [2 ^ 63, 2 ^ 63] ∧
      twoHalves.ResolveExternalIP ip4World background inOrder = some (none, none) ∧
      threeBytes.voters.map voter.weight = [1] ∧
      threeBytes.ResolveExternalIP ip4World background inOrder = some (none, none) := by
  decide

/-- The scan on a map with a non-zero entry (the part of C6 the code keeps): for a Consensus
whose voters have a non-nil source, a context that is not cancelled, every completion order and every iteration order of the map: all voter
goroutines complete, and if the map they leave has an entry with a non-zero count, then
`ResolveExternalIP` returns, with a nil error, `net.ParseIP` of a key of the map whose
count is the greatest in the map. -/
theorem resolve_returns_maximal (w : World) (c : Consensus) (ctx : Context) (s : Schedule)
    (hs : s.Fair) (hsrc : ∀ v ∈ c.voters, v.source ≠ none) (hctx : ctx.Err = none) :
    ∃ st, collectVotes w c ctx s = some st ∧
      ((∃ e ∈ st.voteCollection, 0 < e.2) →
        ∃ key n, (key, n) ∈ st.voteCollection ∧ (∀ e ∈ st.voteCollection, e.2 ≤ n) ∧
          c.ResolveExternalIP w ctx s = some (w.ParseIP key, none)) := by
  obtain ⟨st, hst, _, _, _, _, _⟩ := collectVotes_spec w c ctx s hs.1 hsrc
  refine ⟨st, hst, ?_⟩
  intro hpos
  obtain ⟨hin, hmaxr⟩ := scanVotes_spec st.voteCollection (s.iter st.voteCollection) (hs.2 _) hpos
  refine ⟨_, _, hin, hmaxr, ?_⟩
  rw [resolve_of_done w c ctx s st hst (selectsDone_of_not_cancelled ctx s hctx)]
  have hne : ¬ st.voteCollection.length = 0 := by
    intro h
    obtain ⟨e, he, _⟩ := hpos
    rw [List.length_eq_zero] at h
    rw [h] at he
    simp at he
  rw [if_neg hne]

/-- Scenario D, the tie: the call returns 3.3.3.3 or 4.4.4.4. -/
theorem resolve_returns_maximal_scenarioD :
    scenarioD.ResolveExternalIP ip4World background reversed =
        some (ip4World.ParseIP "3.3.3.3", none) ∨
      scenarioD.ResolveExternalIP ip4World background reversed =
        some (ip4World.ParseIP "4.4.4.4", none) := by
  obtain ⟨st, hst, h⟩ :=
    resolve_returns_maximal ip4World scenarioD background reversed fair_reversed
      (fun v hv => (consensusOf_voters _ v hv).1) rfl
  have h0 : (collectVotes ip4World scenarioD background reversed).map Votes.voteCollection =
      some [("4.4.4.4", 1), ("3.3.3.3", 1)] := by decide
  rw [hst] at h0
  have h1 : st.voteCollection = [("4.4.4.4", 1), ("3.3.3.3", 1)] := Option.some.inj h0
  rw [h1] at h
  obtain ⟨key, n, hmem, _, hres⟩ := h ⟨("4.4.4.4", 1), by simp, by decide⟩
  simp only [List.mem_cons, Prod.mk.injEq, List.mem_singleton, List.not_mem_nil, or_false]
    at hmem
  rcases hmem with ⟨hk, _⟩ | ⟨hk, _⟩
  · right
    rw [hres, hk]
  · left
    rw [hres, hk]

/-- C6, the code at the failing input: on a 64-bit platform the map left by two voters of
weight `2 ^ 63` voting 1.1.1.1 is not empty, the scan over it keeps the empty text, which is no key of the map, and the call
returns a nil IP, which is the address of no key of the map. -/
theorem resolve_scan_misses_zero :
    (collectVotes ip4World twoHalves background inOrder).map Votes.voteCollection =
        some [("1.1.1.1", 0)] ∧
      scanVotes (inOrder.iter [("1.1.1.1", 0)]) = (0, "") ∧
      twoHalves.ResolveExternalIP ip4World background inOrder = some (none, none) ∧
      ip4World.ParseIP "1.1.1.1" ≠ none := by
  decide

/-- C7: for every Consensus, source and weight, `AddVoter` returns an error exactly when
the source is nil or the weight is 0, and when it returns nil the number of registered
voters is one more than before the call. -/
theorem AddVoter_error_iff (c : Consensus) (source : Option Source) (weight : Nat) :
    ((c.AddVoter source weight).2 ≠ none ↔ (source = none ∨ weight = 0)) ∧
      ((c.AddVoter source weight).2 = none →
        (c.AddVoter source weight).1.voters.length = c.voters.length + 1) := by
  unfold Consensus.AddVoter
  cases source with
  | none => simp
  | some src =>
    by_cases hw : weight = 0
    · simp [hw]
    · simp [hw]

/-- C7 on a fresh Consensus: a non-nil source with weight 3 is accepted and is the one
registered voter. -/
theorem AddVoter_accepts_one :
    (NewConsensus.1.AddVoter (some (fixedSource [1, 1, 1, 1])) 3).1.voters.length =
      NewConsensus.1.voters.length + 1 :=
  (AddVoter_error_iff NewConsensus.1 (some (fixedSource [1, 1, 1, 1])) 3).2 rfl

/-- C8: for every Consensus and every value `p`, `UseIPProtocol p` returns nil and leaves
the protocol filter equal to `p` exactly when `p` is 0, 4 or 6; for every other `p` it
returns an error and leaves the Consensus, its protocol filter included, as it was. -/
theorem UseIPProtocol_accepts_iff (c : Consensus) (p : Nat) :
    (((c.UseIPProtocol p).2 = none ∧ (c.UseIPProtocol p).1.protocol = p) ↔
        (p = 0 ∨ p = 4 ∨ p = 6)) ∧
      (¬ (p = 0 ∨ p = 4 ∨ p = 6) →
        (c.UseIPProtocol p).2 ≠ none ∧ (c.UseIPProtocol p).1.protocol = c.protocol ∧
          (c.UseIPProtocol p).1 = c) := by
  by_cases hp : p = 0 ∨ p = 4 ∨ p = 6
  · rw [UseIPProtocol_accepted c p hp]
    simp [hp]
  · rw [UseIPProtocol_rejected c p hp]
    simp [hp]

/-- C8 at a filter of 4 and the value 5: the call is rejected and the filter stays 4. -/
theorem UseIPProtocol_rejects_five :
    ((NewConsensus.1.UseIPProtocol 4).1.UseIPProtocol 5).2 ≠ none ∧
      ((NewConsensus.1.UseIPProtocol 4).1.UseIPProtocol 5).1.protocol = 4 := by
  have h := (UseIPProtocol_accepts_iff (NewConsensus.1.UseIPProtocol 4).1 5).2 (by decide)
  exact ⟨h.1, h.2.1⟩

/-- C9: `NewConsensus` and `DefaultConsensus` return a nil error, and after any sequence
of `AddVoter` and `UseIPProtocol` calls with any arguments on the Consensus either of them
returns, every registered voter has a non-nil source and a weight of at least 1, and the
protocol filter is 0, 4 or 6. -/
theorem wellFormed_invariant (ops : List Op) :
    (NewConsensus.2 = none ∧ (runOps NewConsensus.1 ops).WellFormed) ∧
      ∃ c, DefaultConsensus = (some c, none) ∧ (runOps c ops).WellFormed :=
  ⟨⟨rfl, runOps_wellFormed ops _ NewConsensus_wellFormed⟩,
    ⟨_, DefaultConsensus_eq,
      runOps_wellFormed ops _ (runOps_wellFormed _ _ NewConsensus_wellFormed)⟩⟩

/-- C10: for a Consensus reached from `NewConsensus` by any sequence of registration calls,
in every schedule and under every context, the run of `ResolveExternalIP` returns what
`ResolveExternalIP` returns, and the calls that the sources receive from its goroutines are
one call for each registered voter, on that voter's source; every one of these calls is
given the context of the run and the argument of the most recent `UseIPProtocol` call that
was given 0, 4 or 6, or 0 when there is none; a rejected `UseIPProtocol` call changes
nothing of the run. The result is drawn from the answers to these calls: under a context
that is not cancelled the run returns `ErrNoIP` exactly when every one of these calls was
answered with an error or a nil address. -/
theorem sources_queried_once (w : World) (ctx : Context) (s : Schedule) (ops : List Op)
    (hs : s.Fair) :
    ∃ r, (runOps NewConsensus.1 ops).resolve w ctx s = some r ∧
      (runOps NewConsensus.1 ops).ResolveExternalIP w ctx s = some (r.ip, r.err) ∧
      (r.calls.map fun k => some k.source).Perm
        ((runOps NewConsensus.1 ops).voters.map voter.source) ∧
      r.calls.length = (runOps NewConsensus.1 ops).voters.length ∧
      (∀ k ∈ r.calls, k.ctx = ctx ∧ k.protocol = lastAcceptedProtocol ops) ∧
      (∀ p, ¬ (p = 0 ∨ p = 4 ∨ p = 6) →
        (runOps NewConsensus.1 (ops ++ [Op.UseIPProtocol p])).resolve w ctx s = some r) ∧
      (ctx.Err = none →
        (r.err = some GoError.ErrNoIP ↔ ∀ k ∈ r.calls, k.fails w = true)) := by
  have hwf := runOps_wellFormed ops _ NewConsensus_wellFormed
  obtain ⟨st, hst, _, hkeys, _, hperm, hcalls⟩ :=
    collectVotes_spec w (runOps NewConsensus.1 ops) ctx s hs.1 (fun v hv => (hwf.1 v hv).1)
  obtain ⟨r, hr, hrc, hret⟩ := resolve_calls w (runOps NewConsensus.1 ops) ctx s st hst
  rw [← hrc] at hperm hcalls
  refine ⟨r, hr, hret, hperm, ?_, ?_, ?_, ?_⟩
  · have := hperm.length_eq
    simpa using this
  · intro k hk
    refine ⟨(hcalls k hk).1, ?_⟩
    rw [(hcalls k hk).2, runOps_protocol]
    rfl
  · intro p hp
    have : runOps NewConsensus.1 (ops ++ [Op.UseIPProtocol p]) = runOps NewConsensus.1 ops := by
      simp [runOps, List.foldl_append, Op.apply, UseIPProtocol_rejected _ p hp]
    rw [this, hr]
  · intro hctx
    rw [← voters_fail_iff_calls_fail w ctx _ _ r.calls hperm hcalls,
      ← voteCollection_empty_iff w ctx _ _ st.voteCollection hkeys]
    have hres := resolve_of_done w _ ctx s st hst (selectsDone_of_not_cancelled ctx s hctx)
    rw [hret] at hres
    by_cases hlen : st.voteCollection.length = 0
    · rw [if_pos hlen] at hres
      have h2 := congrArg Prod.snd (Option.some.inj hres)
      exact ⟨fun _ => hlen, fun _ => h2⟩
    · rw [if_neg hlen] at hres
      have h2 : r.err = none := congrArg Prod.snd (Option.some.inj hres)
      constructor
      · intro h
        rw [h2] at h
        exact absurd h (by simp)
      · intro h
        exact absurd h hlen

/-- C10 on a Consensus with two voters, after `UseIPProtocol 4` and a rejected
`UseIPProtocol 5`, the second voter completing first: the failing source and then the
fixed source are called, once each and with the filter 4, and the call returns 1.1.1.1. -/
theorem sources_queried_once_filter4 :
    ∃ r,
      (runOps NewConsensus.1
          [Op.AddVoter (some (fixedSource [1, 1, 1, 1])) 3, Op.UseIPProtocol 4,
            Op.AddVoter (some (failingSource "network error")) 1,
            Op.UseIPProtocol 5]).resolve ip4World background reversed = some r ∧
        (runOps NewConsensus.1
          [Op.AddVoter (some (fixedSource [1, 1, 1, 1])) 3, Op.UseIPProtocol 4,
            Op.AddVoter (some (failingSource "network error")) 1,
            Op.UseIPProtocol 5]).ResolveExternalIP ip4World background reversed =
          some (some [0, 0, 0, 0, 0, 0, 0, 0, 0, 0, 255, 255, 1, 1, 1, 1], none) ∧
        r.calls.length = 2 ∧ ∀ k ∈ r.calls, k.protocol = 4 := by
  obtain ⟨r, h1, _, _, h3, h4, _, _⟩ :=
    sources_queried_once ip4World background reversed
      [Op.AddVoter (some (fixedSource [1, 1, 1, 1])) 3, Op.UseIPProtocol 4,
        Op.AddVoter (some (failingSource "network error")) 1, Op.UseIPProtocol 5]
      fair_reversed
  exact ⟨r, h1, by decide, h3, fun k hk => (h4 k hk).2⟩

/-- C11: `DefaultConsensus` returns a nil error and a Consensus of 8 voters, in
registration order 2 voters with an `https://` URL followed by 6 voters with an `http://`
URL; every voter with an `https://` URL has weight 3 and every voter with an `http://` URL
has weight 1. -/
theorem DefaultConsensus_weights :
    DefaultConsensus.2 = none ∧
      ∃ c, DefaultConsensus.1 = some c ∧
        c.voters.map (fun v => (v.url, v.weight)) =
          [(some "https://icanhazip.com/", 3), (some "https://myexternalip.com/raw", 3),
            (some "http://ifconfig.io/ip", 1), (some "http://checkip.amazonaws.com/", 1),
            (some "http://ident.me/", 1), (some "http://whatismyip.akamai.com/", 1),
            (some "http://myip.dnsomatic.com/", 1),
            (some "http://diagnostic.opendns.com/myip", 1)] ∧
        c.voters.all (fun v => !v.secured || v.weight == 3) = true ∧
        c.voters.all (fun v => !v.plain || v.weight == 1) = true ∧
        c.voters.map voter.secured =
          [true, true, false, false, false, false, false, false] ∧
        c.voters.map voter.plain =
          [false, false, true, true, true, true, true, true] ∧
        c.voters.length = 8 := by
  refine ⟨rfl, _, congrArg Prod.fst DefaultConsensus_eq, ?_, ?_, ?_, ?_, ?_, ?_⟩ <;> decide

/-- C12: a successful `AddVoter (source, weight)` leaves every voter registered before at
its position, puts the voter with exactly that source and weight last, and leaves the
protocol filter and the default timeout as they were; a failing `AddVoter` leaves the
whole Consensus as it was. -/
theorem AddVoter_frame (c : Consensus) (source : Option Source) (weight : Nat) :
    ((c.AddVoter source weight).2 = none →
        (c.AddVoter source weight).1.voters = c.voters ++ [⟨source, weight⟩] ∧
          (∀ i, i < c.voters.length →
            (c.AddVoter source weight).1.voters[i]? = c.voters[i]?) ∧
          (c.AddVoter source weight).1.voters.getLast? = some ⟨source, weight⟩ ∧
          (c.AddVoter source weight).1.protocol = c.protocol ∧
          (c.AddVoter source weight).1.timeout = c.timeout) ∧
      ((c.AddVoter source weight).2 ≠ none → (c.AddVoter source weight).1 = c) := by
  unfold Consensus.AddVoter
  cases source with
  | none => simp
  | some src =>
    by_cases hw : weight = 0
    · simp [hw]
    · simp only [Option.isNone_some, Bool.false_eq_true, if_false, hw, ne_eq,
        not_true_eq_false, false_implies, and_true, true_implies, true_and]
      refine ⟨?_, ?_⟩
      · intro i hi
        exact List.getElem?_append_left hi
      · simp

/-- C12 on Scenario A: a fourth voter is put last, the three voters and the filter stay. -/
theorem AddVoter_frame_scenarioA :
    (scenarioA.AddVoter (some (failingSource "network error")) 2).1.voters =
        scenarioA.voters ++ [⟨some (failingSource "network error"), 2⟩] ∧
      (scenarioA.AddVoter (some (failingSource "network error")) 2).1.protocol =
        scenarioA.protocol := by
  have h := (AddVoter_frame scenarioA (some (failingSource "network error")) 2).1 rfl
  exact ⟨h.1, h.2.2.2.1⟩

end geoip

namespace tzlocal

/-! ## inferFromPath -/

theorem afterLastSlash_eq_zero (B : List Char) (h : '/' ∉ B) : afterLastSlash B = 0 := by
  induction B with
  | nil => rfl
  | cons c cs ih =>
    have hc : c ≠ '/' := fun e => h (by simp [e])
    have hcs : '/' ∉ cs := fun e => h (List.mem_cons_of_mem _ e)
    simp [afterLastSlash, ih hcs, hc]

theorem afterLastSlash_append (X B : List Char) (h : '/' ∉ B) :
    afterLastSlash (X ++ '/' :: B) = X.length + 1 := by
  induction X with
  | nil => simp [afterLastSlash, afterLastSlash_eq_zero B h]
  | cons c cs ih => simp [afterLastSlash, ih]

/-- Splitting a text whose last `/` is known. -/
theorem Split_append (X B : List Char) (h : '/' ∉ B) :
    path.Split (X ++ '/' :: B) = (X ++ ['/'], B) := by
  unfold path.Split
  rw [afterLastSlash_append X B h]
  have hx : X ++ '/' :: B = (X ++ ['/']) ++ B := by simp
  have hl : X.length + 1 = (X ++ ['/']).length := by simp
  rw [hx, hl, List.take_left, List.drop_left]

/-- The name inferred from a path whose last two `/` are known. -/
theorem inferFromPath_append (Y F L : List Char) (hF : '/' ∉ F) (hL : '/' ∉ L)
    (hne : L ≠ []) :
    inferFromPath (Y ++ '/' :: F ++ '/' :: L) =
      if F = "zoneinfo".toList then (L, none) else (F ++ '/' :: L, none) := by
  have hx : Y ++ '/' :: F ++ '/' :: L = (Y ++ '/' :: F) ++ '/' :: L := by simp
  have hlen : ¬ (((Y ++ '/' :: F) ++ ['/']).length = 0 ∨ L.length = 0) := by
    simp [hne]
  have htake : ((Y ++ '/' :: F) ++ ['/']).take (((Y ++ '/' :: F) ++ ['/']).length - 1) =
      Y ++ '/' :: F := by
    have hl : ((Y ++ '/' :: F) ++ ['/']).length - 1 = (Y ++ '/' :: F).length := by simp
    rw [hl, List.take_left]
  unfold inferFromPath
  rw [hx, Split_append _ L hL]
  simp only [hlen, if_false, htake, Split_append Y F hF]
  by_cases hz : F = "zoneinfo".toList
  · simp [hz]
  · simp [hz, PathSeparator]

/-- C13: for every path `P/zoneinfo/A/B` with `A` and `B` non-empty and free of `/` and `A`
other than `zoneinfo`, `inferFromPath` returns `A/B` with a nil error; for every path
`P/zoneinfo/A` with `A` non-empty and free of `/` it returns `A` with a nil error. -/
theorem inferFromPath_zone_names :
    (∀ P A B : List Char, A ≠ [] → B ≠ [] → '/' ∉ A → '/' ∉ B → A ≠ "zoneinfo".toList →
        inferFromPath (P ++ "/zoneinfo/".toList ++ A ++ "/".toList ++ B) =
          (A ++ "/".toList ++ B, none)) ∧
      (∀ P A : List Char, A ≠ [] → '/' ∉ A →
        inferFromPath (P ++ "/zoneinfo/".toList ++ A) = (A, none)) := by
  have hs : "/".toList = ['/'] := rfl
  have hz : "/zoneinfo/".toList = '/' :: "zoneinfo".toList ++ ['/'] := rfl
  have hzs : '/' ∉ "zoneinfo".toList := by decide
  constructor
  · intro P A B _ hB hAs hBs hne
    have hx : P ++ "/zoneinfo/".toList ++ A ++ "/".toList ++ B =
        (P ++ '/' :: "zoneinfo".toList) ++ '/' :: A ++ '/' :: B := by
      rw [hs, hz]
      simp
    rw [hx, inferFromPath_append _ A B hAs hBs hB, if_neg hne, hs]
    simp
  · intro P A hA hAs
    have hx : P ++ "/zoneinfo/".toList ++ A = P ++ '/' :: "zoneinfo".toList ++ '/' :: A := by
      rw [hz]
      simp
    rw [hx, inferFromPath_append P _ A hzs hAs hA, if_pos rfl]

/-- C13 on the paths of the test and of the comment: `Asia/Tokyo` and `Japan`. -/
theorem inferFromPath_Tokyo_Japan :
    inferFromPath "/usr/share/zoneinfo/Asia/Tokyo".toList = ("Asia/Tokyo".toList, none) ∧
      inferFromPath "/usr/share/zoneinfo/Japan".toList = ("Japan".toList, none) :=
  ⟨inferFromPath_zone_names.1 "/usr/share".toList "Asia".toList "Tokyo".toList
      (by decide) (by decide) (by decide) (by decide) (by decide),
    inferFromPath_zone_names.2 "/usr/share".toList "Japan".toList (by decide) (by decide)⟩

end tzlocal
